import Mathlib

/-!
Verification of `pyscaffoldext-ClickStart` against its specification

Shallow embedding of `src/pyscaffoldext/clickstart/extension.py` (the
PyScaffold "Clickstart" extension) together with the fragments of the host
environment (PyScaffold's structure/action helpers and the `ConfigUpdater`
document model) that the extension manipulates.  Python strings are Lean
`String`s, Python dicts are association lists (first binding wins), raised
exceptions are `Except.error`, and the mutable `ConfigUpdater` document is
threaded as a value.
-/

namespace Clickstart

/-! ## Character-list text utilities

Python's `str` operations used by the extension (`in`, `strip`,
concatenation) modelled on `List Char` so that everything reduces in the
kernel. -/

/-- Number of (possibly overlapping) occurrences of `needle` in `hay`,
counting start positions; mirrors the semantics of Python's `in` test
(`countOccur n h ≠ 0 ↔ n in h`). -/
def countOccur (needle : List Char) : List Char → Nat
  | [] => if needle = [] then 1 else 0
  | c :: rest =>
      (if needle.isPrefixOf (c :: rest) then 1 else 0) + countOccur needle rest

/-- Python's `needle in hay` substring test. -/
def containsSub (needle hay : List Char) : Bool :=
  countOccur needle hay ≠ 0

/-- Occurrence count lifted to `String`. -/
def countOccurStr (needle hay : String) : Nat :=
  countOccur needle.data hay.data

/-- Python's `str.strip()`: remove leading and trailing whitespace. -/
def pystrip (s : String) : String :=
  ⟨((s.data.dropWhile Char.isWhitespace).reverse.dropWhile Char.isWhitespace).reverse⟩

/-! ## Options mapping, file operations, leaves

The PyScaffold `ScaffoldOpts` mapping is string-keyed; the extension only
ever reads string values from it.  A tree leaf is either bare content or a
`(content, file_op)` pair, as accepted by `pyscaffold.structure.resolve_leaf`.
-/

/-- The options mapping (`ScaffoldOpts`): first binding for a key wins. -/
abbrev Opts := List (String × String)

/-- Model of `opts[k]` as a total lookup. -/
def lookupOpts (opts : Opts) (k : String) : Option String :=
  (opts.find? (fun p => p.1 = k)).map (·.2)

/-- PyScaffold write policies (`pyscaffold.operations`): `create` (the
default), `no_overwrite`, `skip_on_update`. -/
inductive FileOp
  | create
  | noOverwrite
  | skipOnUpdate
deriving DecidableEq, Repr

/-- Model of `NO_OVERWRITE = no_overwrite()` from the extension module. -/
def NO_OVERWRITE : FileOp := .noOverwrite

/-- Leaf content: literal text, or a deferred template loaded through
`get_template` (rendered by the host at flush time; the claims never
inspect a template's rendered text, so a template is represented by its
logical name). -/
inductive Content
  | text (s : String)
  | template (name : String)
deriving DecidableEq, Repr

/-- Model of `pyscaffold.structure.reify_content`: materialize content given the
options.  Literal text is returned as is; a deferred template is rendered
by the host (represented here by its logical name). -/
def reify_content (c : Content) (_opts : Opts) : String :=
  match c with
  | .text s => s
  | .template name => name

/-- A tree leaf as accepted by `resolve_leaf`: either bare content or a
`(content, op)` pair.  `none` content models Python `None`. -/
inductive Leaf
  | content (c : Option Content)
  | withOp (c : Option Content) (op : FileOp)
deriving DecidableEq, Repr

/-- Model of `pyscaffold.structure.resolve_leaf`: normalize a leaf into a
`(content, file_op)` pair, defaulting the operation to `create`. -/
def resolve_leaf : Leaf → Option Content × FileOp
  | .content c => (c, .create)
  | .withOp c op => (c, op)

/-! ## The `ConfigUpdater` document model

`pyscaffold.update.ConfigUpdater` re-exports the `configupdater` library:
an INI document is an ordered list of blocks (sections, comments, blank
space), and a section is a name plus an ordered list of blocks (options,
comments, space).  Comments and blank lines are preserved; an option's
value is either inline or a multi-line list set through `set_values`.
Block builders (`add_before` / `add_after` / `insert_at`) insert new
blocks without checking for duplicate options (only duplicate *sections*
are rejected), which is what the spec's §9 open question is about. -/

/-- A block inside a section: a comment line, an option (key plus its
value lines; an inline value is a singleton list, a bare key the empty
list), or a run of blank lines. -/
inductive Block
  | comment (text : String)
  | opt (key : String) (values : List String)
  | space (n : Nat)
deriving DecidableEq, Repr

/-- A named section with its ordered blocks. -/
structure CfgSection where
  name : String
  blocks : List Block
deriving DecidableEq, Repr

/-- A top-level block of the document. -/
inductive DocBlock
  | sec (s : CfgSection)
  | comment (text : String)
  | space (n : Nat)
deriving DecidableEq, Repr

/-- The `ConfigUpdater` document: an ordered list of top-level blocks. -/
abbrev ConfigUpdater := List DocBlock

/-- Model of `cfg.has_section name`. -/
def hasSection (cfg : ConfigUpdater) (name : String) : Bool :=
  match cfg with
  | [] => false
  | .sec s :: rest => s.name = name || hasSection rest name
  | _ :: rest => hasSection rest name

/-- Index of the first block that is a section named `name`. -/
def firstSectionIdx (cfg : ConfigUpdater) (name : String) : Option Nat :=
  match cfg with
  | [] => none
  | .sec s :: rest =>
      if s.name = name then some 0 else (firstSectionIdx rest name).map (· + 1)
  | _ :: rest => (firstSectionIdx rest name).map (· + 1)

/-- Model of `cfg[name]`: the first section with the given name. -/
def getSection? (cfg : ConfigUpdater) (name : String) : Option CfgSection :=
  match cfg with
  | [] => none
  | .sec s :: rest => if s.name = name then some s else getSection? rest name
  | _ :: rest => getSection? rest name

/-- Rewrite the blocks of the first section named `name` with `f`
(modelling in-place mutation of the section object returned by
`cfg[name]`). -/
def mapSectionBlocks (name : String) (f : List Block → List Block) :
    ConfigUpdater → ConfigUpdater
  | [] => []
  | .sec s :: rest =>
      if s.name = name then .sec ⟨s.name, f s.blocks⟩ :: rest
      else .sec s :: mapSectionBlocks name f rest
  | b :: rest => b :: mapSectionBlocks name f rest

/-- Model of `cfg[after].add_after.section(name)`: insert a fresh empty section
immediately after the first section named `after`. -/
def addSectionAfter (cfg : ConfigUpdater) (after name : String) : ConfigUpdater :=
  match cfg with
  | [] => []
  | .sec s :: rest =>
      if s.name = after then .sec s :: .sec ⟨name, []⟩ :: rest
      else .sec s :: addSectionAfter rest after name
  | b :: rest => b :: addSectionAfter rest after name

/-- Model of `cfg.add_section(name)`: append a fresh empty section at the end of
the document. -/
def addSectionAtEnd (cfg : ConfigUpdater) (name : String) : ConfigUpdater :=
  cfg ++ [.sec ⟨name, []⟩]

/-- Model of `cfg[name].add_after.space(1)`: insert a blank-space block right
after the first section named `name`. -/
def addSpaceAfter (cfg : ConfigUpdater) (name : String) : ConfigUpdater :=
  match cfg with
  | [] => []
  | .sec s :: rest =>
      if s.name = name then .sec s :: .space 1 :: rest
      else .sec s :: addSpaceAfter rest name
  | b :: rest => b :: addSpaceAfter rest name

/-- Is some block of the section an option with the given key? -/
def hasOpt (blocks : List Block) (key : String) : Bool :=
  match blocks with
  | [] => false
  | .opt k _ :: rest => k = key || hasOpt rest key
  | _ :: rest => hasOpt rest key

/-- The value lines of the first option with the given key. -/
def getOptValues (blocks : List Block) (key : String) : Option (List String) :=
  match blocks with
  | [] => none
  | .opt k vs :: rest => if k = key then some vs else getOptValues rest key
  | _ :: rest => getOptValues rest key

/-- Replace the value lines of the first option with the given key
(`option.set_values(...)` / `option.value = ...`). -/
def setFirstOpt (key : String) (vs : List String) : List Block → List Block
  | [] => []
  | .opt k old :: rest =>
      if k = key then .opt k vs :: rest else .opt k old :: setFirstOpt key vs rest
  | b :: rest => b :: setFirstOpt key vs rest

/-- Insert blocks immediately before the first option with the given key
(`option.add_before` builder). -/
def insertBeforeOpt (key : String) (new : List Block) : List Block → List Block
  | [] => []
  | .opt k vs :: rest =>
      if k = key then new ++ (.opt k vs :: rest)
      else .opt k vs :: insertBeforeOpt key new rest
  | b :: rest => b :: insertBeforeOpt key new rest

/-- Model of `section.set(key, value)`: update the first option with the key, or
append a fresh one at the end of the section. -/
def sectionSet (blocks : List Block) (key value : String) : List Block :=
  if hasOpt blocks key then setFirstOpt key [value] blocks
  else blocks ++ [.opt key [value]]

/-! ### Parsing and serialization

A line-based model of `ConfigUpdater.read_string` / `str(cfg)`: section
headers `[name]`, comment lines starting with `#` or `;`, blank lines,
`key = value` options and indented continuation lines for multi-line
values.  Like the library's strict parser it rejects duplicate sections,
duplicate options within a section, option lines before any section
header, and unparseable lines. -/

/-- Split into lines at `'\n'` (a trailing newline yields a final empty
line, dropped by the caller). -/
def splitLinesAux (s : List Char) (acc : List Char) : List (List Char) :=
  match s with
  | [] => [acc.reverse]
  | c :: rest =>
      if c = '\n' then acc.reverse :: splitLinesAux rest []
      else splitLinesAux rest (c :: acc)

/-- The lines of a string. -/
def splitLines (s : String) : List (List Char) :=
  splitLinesAux s.data []

/-- Strip leading/trailing whitespace of a raw line. -/
def trimChars (l : List Char) : List Char :=
  ((l.dropWhile Char.isWhitespace).reverse.dropWhile Char.isWhitespace).reverse

/-- Split a line at the first `'='` delimiter, if any. -/
def splitEq (l : List Char) : Option (List Char × List Char) :=
  match l.findIdx? (· = '=') with
  | none => none
  | some i => some (l.take i, l.drop (i + 1))

/-- One parsing step: fold the next raw line into the document built so
far (section list reversed, blocks of the open section reversed). -/
def parseLine (st : Except String (ConfigUpdater × Option CfgSection))
    (line : List Char) : Except String (ConfigUpdater × Option CfgSection) := do
  let (doc, cur) ← st
  let flush : ConfigUpdater := match cur with
    | none => doc
    | some s => doc ++ [.sec ⟨s.name, s.blocks.reverse⟩]
  let push (b : Block) : Except String (ConfigUpdater × Option CfgSection) :=
    match cur with
    | none => .error "MissingSectionHeaderError"
    | some s => .ok (doc, some ⟨s.name, b :: s.blocks⟩)
  match trimChars line with
  | [] =>
      match cur with
      | none => .ok (doc ++ [.space 1], none)
      | some s => .ok (doc, some ⟨s.name, .space 1 :: s.blocks⟩)
  | '[' :: rest =>
      if rest.getLast? = some ']' then
        let name : String := ⟨rest.dropLast⟩
        if hasSection flush name then .error "DuplicateSectionError"
        else .ok (flush, some ⟨name, []⟩)
      else .error "ParsingError"
  | '#' :: rest => push (.comment ⟨'#' :: rest⟩)
  | ';' :: rest => push (.comment ⟨';' :: rest⟩)
  | t =>
      if line.head?.any Char.isWhitespace then
        -- continuation line of a multi-line value
        match cur with
        | some s =>
            match s.blocks with
            | .opt k vs :: bs => .ok (doc, some ⟨s.name, .opt k (vs ++ [⟨t⟩]) :: bs⟩)
            | _ => .error "ParsingError"
        | none => .error "ParsingError"
      else
        match splitEq t with
        | none => .error "ParsingError"
        | some (k, v) =>
            let key : String := ⟨trimChars k⟩
            let value := trimChars v
            let vs : List String := if value = [] then [] else [⟨value⟩]
            match cur with
            | none => .error "MissingSectionHeaderError"
            | some s =>
                if hasOpt s.blocks.reverse key then .error "DuplicateOptionError"
                else .ok (doc, some ⟨s.name, .opt key vs :: s.blocks⟩)

/-- Model of `ConfigUpdater().read_string(text)`. -/
def read_string (text : String) : Except String ConfigUpdater := do
  let lines := splitLines text
  let lines := if lines.getLast? = some [] then lines.dropLast else lines
  let (doc, cur) ← lines.foldl parseLine (.ok ([], none))
  match cur with
  | none => .ok doc
  | some s => .ok (doc ++ [.sec ⟨s.name, s.blocks.reverse⟩])

/-- Serialize one section block. -/
def renderBlock : Block → String
  | .comment t => t ++ "\n"
  | .opt k [] => k ++ " =\n"
  | .opt k [v] => k ++ " = " ++ v ++ "\n"
  | .opt k vs => k ++ " =" ++ String.join (vs.map (fun v => "\n    " ++ v)) ++ "\n"
  | .space n => String.join (List.replicate n "\n")

/-- Serialize a top-level block. -/
def renderDocBlock : DocBlock → String
  | .sec s => "[" ++ s.name ++ "]\n" ++ String.join (s.blocks.map renderBlock)
  | .comment t => t ++ "\n"
  | .space n => String.join (List.replicate n "\n")

/-- Model of `str(cfg)`. -/
def render (cfg : ConfigUpdater) : String :=
  String.join (cfg.map renderDocBlock)

/-! ## `extension.py`: the setup.cfg patch functions -/

/-- The fixed dependency tuple `REQUIREMENT_DEPENDENCIES`. -/
def REQUIREMENT_DEPENDENCIES : List String :=
  ["importlib-metadata; python_version>\"3.9\"",
   "click>=8.0",
   "pytest",
   "pytest-cov"]

/-- The module constant `PYTHON_REQUIRES`. -/
def PYTHON_REQUIRES : String := "python_requires = >=3.9"

/-- Model of `add_install_requires`: `setupcfg["options"]["install_requires"].set_values(REQUIREMENT_DEPENDENCIES)`.
Missing section or option raises `KeyError`. -/
def add_install_requires (setupcfg : ConfigUpdater) (_opts : Opts) :
    Except String ConfigUpdater :=
  match getSection? setupcfg "options" with
  | none => .error "KeyError: options"
  | some s =>
      if hasOpt s.blocks "install_requires" then
        .ok (mapSectionBlocks "options"
              (setFirstOpt "install_requires" REQUIREMENT_DEPENDENCIES) setupcfg)
      else .error "KeyError: install_requires"

/-- Model of `py_requires`: insert, immediately before `install_requires` in
`[options]`, the comment `# Minimum Python Version 3.9 required` followed
by the option `python_requires = >=3.9,<3.13` (builder insertion: no
duplicate check). -/
def py_requires (setupcfg : ConfigUpdater) (_opts : Opts) :
    Except String ConfigUpdater :=
  match getSection? setupcfg "options" with
  | none => .error "KeyError: options"
  | some s =>
      if hasOpt s.blocks "install_requires" then
        .ok (mapSectionBlocks "options"
              (insertBeforeOpt "install_requires"
                [.comment "# Minimum Python Version 3.9 required",
                 .opt "python_requires" [">=3.9,<3.13"]]) setupcfg)
      else .error "KeyError: install_requires"

/-- Model of `add_entry_point`: ensure an `[options.entry_points]` section exists
(created right after `[options]` when absent), insert a `console_scripts`
option at position 0 of that section (builder insertion: no duplicate
check), and set the value of the first `console_scripts` option to the
result of formatting `"{package} = {package}.cli:cli"` with the options
(a missing `package` key raises `KeyError`). -/
def add_entry_point (setupcfg : ConfigUpdater) (opts : Opts) :
    Except String ConfigUpdater := do
  let entry_points_key := "options.entry_points"
  let setupcfg ←
    if ¬ hasSection setupcfg entry_points_key then
      if hasSection setupcfg "options" then
        .ok (addSectionAfter setupcfg "options" entry_points_key)
      else .error "KeyError: options"
    else .ok setupcfg
  let setupcfg :=
    mapSectionBlocks entry_points_key (fun bs => .opt "console_scripts" [] :: bs) setupcfg
  match lookupOpts opts "package" with
  | none => .error "KeyError: package"
  | some package =>
      .ok (mapSectionBlocks entry_points_key
            (setFirstOpt "console_scripts" [package ++ " = " ++ package ++ ".cli:cli"])
            setupcfg)

/-- Model of `modify_setupcfg`: resolve the leaf, fail if its content is `None`,
parse the reified text, fold the three modifiers over the document and
return the serialized result paired with the original write policy. -/
def modify_setupcfg (definition : Leaf) (opts : Opts) :
    Except String (String × FileOp) := do
  let (contents, original_op) := resolve_leaf definition
  match contents with
  | none => .error "ValueError: File contents for setup.cfg should not be None"
  | some c => do
      let setupcfg ← read_string (reify_content c opts)
      let s1 ← add_install_requires setupcfg opts
      let s2 ← py_requires s1 opts
      let s3 ← add_entry_point s2 opts
      .ok (render s3, original_op)

/-! ## The file tree (`pyscaffold.structure`) -/

/-- A node of the project tree: a file leaf or a nested directory. -/
inductive Node
  | file (l : Leaf)
  | dir (entries : List (String × Node))

/-- The project tree (`Structure`): a string-keyed mapping. -/
abbrev Structure := List (String × Node)

/-- Model of `struct[k]` lookup (first binding wins). -/
def lookupS (struct : Structure) (k : String) : Option Node :=
  (struct.find? (fun p => p.1 = k)).map (·.2)

/-- Model of `struct[k] = v`: replace the first binding for `k`, or append. -/
def setEntry (struct : Structure) (k : String) (v : Node) : Structure :=
  match struct with
  | [] => [(k, v)]
  | (k', v') :: rest =>
      if k' = k then (k, v) :: rest else (k', v') :: setEntry rest k v

/-- Remove the binding for `k`, if any. -/
def removeEntry (struct : Structure) (k : String) : Structure :=
  match struct with
  | [] => []
  | (k', v') :: rest =>
      if k' = k then rest else (k', v') :: removeEntry rest k

mutual

/-- Model of `pyscaffold.structure.merge`: recursively overlay `new` onto `old`;
shared directory keys merge recursively, a leaf from `new` replaces the
old entry, and genuinely new keys are appended. -/
def mergeNode : Node → Node → Node
  | .dir old, .dir new => .dir (mergeEntries old new)
  | _, n => n
termination_by _ n => sizeOf n

/-- Merge of two directory entry lists. -/
def mergeEntries (old new : List (String × Node)) : List (String × Node) :=
  match new with
  | [] => old
  | (k, v) :: rest =>
      match (old.find? (fun p => p.1 = k)).map (·.2) with
      | none => mergeEntries (old ++ [(k, v)]) rest
      | some ov => mergeEntries (setEntry old k (mergeNode ov v)) rest
termination_by sizeOf new

end

/-- Model of `merge struct files`. -/
def merge (old new : Structure) : Structure := mergeEntries old new

/-- Model of `pyscaffold.structure.reject struct path` for a one-component path:
remove the entry if present (absent paths are a no-op). -/
def reject (struct : Structure) (path : String) : Structure :=
  removeEntry struct path

/-- Model of `pyscaffold.structure.reject` for a nested `src/<package>/<file>`
path, as used by `reject_file`. -/
def rejectNested (struct : Structure) (p1 p2 p3 : String) : Structure :=
  match lookupS struct p1 with
  | some (.dir d1) =>
      match lookupS d1 p2 with
      | some (.dir d2) =>
          setEntry struct p1 (.dir (setEntry d1 p2 (.dir (removeEntry d2 p3))))
      | _ => struct
  | _ => struct

/-! ## `extension.py`: the tree-level action steps -/

/-- Model of `get_template(name, relative_to=my_templates)`: a deferred template
loaded from the extension's bundled template directory (opaque to every
claim; represented by its logical name). -/
def get_template (name : String) : Content := .template name

/-- Model of `add_files`: build the `files` structure (cli/api/runner/conftest
templates plus the patched `setup.cfg` leaf) and merge it onto the input
tree.  Evaluation order of the Python dict literal: the `opts["package"]`
subscript is evaluated first, then `struct["setup.cfg"]` (a `KeyError`
when absent), then `modify_setupcfg`. -/
def add_files (struct : Structure) (opts : Opts) :
    Except String (Structure × Opts) := do
  let cli_template := get_template "cli"
  let api_template := get_template "api"
  let runner_template := get_template "runner"
  let conftest_template := get_template "conftest"
  let package ←
    match lookupOpts opts "package" with
    | none => .error "KeyError: package"
    | some p => .ok p
  let scfg ←
    match lookupS struct "setup.cfg" with
    | none => .error "KeyError: setup.cfg"
    | some (.file l) => .ok l
    | some (.dir _) => .error "TypeError: setup.cfg is not a leaf"
  let patched ← modify_setupcfg scfg opts
  let files : Structure :=
    [("src", .dir [(package, .dir
        [("cli.py", .file (.withOp (some cli_template) NO_OVERWRITE)),
         ("api.py", .file (.withOp (some api_template) NO_OVERWRITE))])]),
     ("__main__.py", .file (.withOp (some runner_template) NO_OVERWRITE)),
     ("setup.cfg", .file (.withOp (some (.text patched.1)) patched.2)),
     ("tests", .dir
        [("conftest.py", .file (.withOp (some conftest_template) NO_OVERWRITE))])]
  .ok (merge struct files, opts)

/-- Model of `reject_file`: drop the default `src/<package>/skeleton.py`. -/
def reject_file (struct : Structure) (opts : Opts) :
    Except String (Structure × Opts) := do
  match lookupOpts opts "package" with
  | none => .error "KeyError: package"
  | some package => .ok (rejectNested struct "src" package "skeleton.py", opts)

/-- Model of `remove_setup_py`: drop `setup.py` from the tree. -/
def remove_setup_py (struct : Structure) (opts : Opts) :
    Except String (Structure × Opts) :=
  .ok (reject struct "setup.py", opts)

/-- Model of `modify_gitignore`: skip when the tree has no `.gitignore`; resolve
and reify its content (a non-string, including Python `None`, raises
`TypeError`); skip when `src/<package>/_version.py` already occurs in the
text; otherwise append the ignore line after stripping surrounding
whitespace and write the result back with the original policy. -/
def modify_gitignore (struct : Structure) (opts : Opts) :
    Except String (Structure × Opts) := do
  let gitignore_path := ".gitignore"
  match lookupS struct gitignore_path with
  | none => .ok (struct, opts)
  | some (.dir _) => .error "TypeError: Expected string for .gitignore, got dict"
  | some (.file l) =>
      let (contents?, original_op) := resolve_leaf l
      match contents? with
      | none => .error "TypeError: Expected string for .gitignore, got NoneType"
      | some c =>
          let contents := reify_content c opts
          match lookupOpts opts "package" with
          | none => .error "KeyError: package"
          | some package_name =>
              let version_file := "src/" ++ package_name ++ "/_version.py"
              if containsSub version_file.data contents.data then
                .ok (struct, opts)
              else
                let updated_contents := pystrip contents ++ "\n" ++ version_file ++ "\n"
                .ok (setEntry struct gitignore_path
                      (.file (.withOp (some (.text updated_contents)) original_op)), opts)

/-- The pure `[tool.*]` patching of `modify_pyproject_toml` on the parsed
document: setuptools_scm (version/local scheme, `write_to`), Black and
pytest settings, each section created at the end of the document when
absent, with a blank line forced after the first two. -/
def patchPyprojectDoc (pyproject : ConfigUpdater) (write_to_path : String) :
    ConfigUpdater :=
  let p1 := if ¬ hasSection pyproject "tool.setuptools_scm" then
              addSectionAtEnd pyproject "tool.setuptools_scm"
            else pyproject
  let p2 := mapSectionBlocks "tool.setuptools_scm" (fun bs =>
              sectionSet (sectionSet (sectionSet bs
                "version_scheme" "\"guess-next-dev\"")
                "local_scheme" "\"node-and-date\"")
                "write_to" ("\"" ++ write_to_path ++ "\"")) p1
  let p3 := addSpaceAfter p2 "tool.setuptools_scm"
  let p4 := if ¬ hasSection p3 "tool.black" then addSectionAtEnd p3 "tool.black"
            else p3
  let p5 := mapSectionBlocks "tool.black" (fun bs =>
              sectionSet (sectionSet (sectionSet bs
                "line-length" "120")
                "target-version" "[\"py312\"]")
                "skip-string-normalization" "true") p4
  let p6 := addSpaceAfter p5 "tool.black"
  let p7 := if ¬ hasSection p6 "tool.pytest.ini_options" then
              addSectionAtEnd p6 "tool.pytest.ini_options"
            else p6
  mapSectionBlocks "tool.pytest.ini_options" (fun bs =>
    sectionSet (sectionSet (sectionSet (sectionSet bs
      "log_cli" "true")
      "log_cli_level" "\"INFO\"")
      "log_cli_format" "\"%(asctime)s [%(levelname)8s] %(message)s (%(filename)s:%(lineno)s)\"")
      "log_cli_date_format" "\"%d/%m/%Y %H:%M:%S\"") p7

/-- Model of `modify_pyproject_toml`: skip when the tree has no `pyproject.toml`;
resolve and reify its content (non-string content raises `TypeError`),
parse it, apply the `[tool.*]` patches with
`write_to = src/<package>/_version.py`, and write the serialized result
back with the original policy. -/
def modify_pyproject_toml (struct : Structure) (opts : Opts) :
    Except String (Structure × Opts) := do
  let toml_path := "pyproject.toml"
  match lookupS struct toml_path with
  | none => .ok (struct, opts)
  | some (.dir _) => .error "TypeError: Expected string for pyproject.toml, got dict"
  | some (.file l) =>
      let (contents?, original_op) := resolve_leaf l
      match contents? with
      | none => .error "TypeError: Expected string for pyproject.toml, got NoneType"
      | some c => do
          let contents := reify_content c opts
          let pyproject ← read_string contents
          match lookupOpts opts "package" with
          | none => .error "KeyError: package"
          | some package_name =>
              let write_to_path := "src/" ++ package_name ++ "/_version.py"
              let patched := patchPyprojectDoc pyproject write_to_path
              .ok (setEntry struct toml_path
                    (.file (.withOp (some (.text (render patched))) original_op)), opts)

/-! ## The action pipeline (`Clickstart.activate`)

`Extension.register` delegates to `pyscaffold.actions.register`, whose
default position — neither `before` nor `after` was passed anywhere in
`activate` — is *right after* the host's `define_structure` action.
Registering several actions this way therefore stacks them directly
behind `define_structure`, so they execute in reverse registration
order. -/

/-- A pipeline action: one of the host's own actions (by id), or one of
this extension's five hooks. -/
inductive PAction
  | hostAction (id : String)
  | add_files
  | reject_file
  | modify_pyproject_toml
  | modify_gitignore
  | remove_setup_py
deriving DecidableEq, Repr

/-- The id used to locate an action in the list. -/
def actionId : PAction → String
  | .hostAction id => id
  | .add_files => "add_files"
  | .reject_file => "reject_file"
  | .modify_pyproject_toml => "modify_pyproject_toml"
  | .modify_gitignore => "modify_gitignore"
  | .remove_setup_py => "remove_setup_py"

/-- Insert `a` immediately after the first action with the given id. -/
def insertAfterId (actions : List PAction) (ref : String) (a : PAction) :
    List PAction :=
  match actions with
  | [] => []
  | b :: rest =>
      if actionId b = ref then b :: a :: rest
      else b :: insertAfterId rest ref a

/-- Model of `pyscaffold.actions.register` with the default reference point:
insert the new action right after `define_structure`, failing when no
such action exists. -/
def register (actions : List PAction) (a : PAction) :
    Except String (List PAction) :=
  if actions.any (fun b => actionId b = "define_structure") then
    .ok (insertAfterId actions "define_structure" a)
  else .error "ActionNotFound: define_structure"

/-- Model of `Clickstart.activate`: register the five hooks in source order. -/
def activate (actions : List PAction) : Except String (List PAction) := do
  let a1 ← register actions .add_files
  let a2 ← register a1 .reject_file
  let a3 ← register a2 .modify_pyproject_toml
  let a4 ← register a3 .modify_gitignore
  register a4 .remove_setup_py

/-! ## Placeholder substitution engine (spec §4.1)

`_substitute_brace_vars` is exercised by the repository's unit tests but
its definition is not among the sources; the engine below is modelled
from the specification's words. -/

/-- Modelled from the spec: resolution order for the project value —
explicit `project` key, else `project_name`, else `name`, else the
literal fallback `"project"` (§4.1). -/
def resolve_project_value (opts : Opts) : String :=
  ((lookupOpts opts "project").orElse fun _ =>
    (lookupOpts opts "project_name").orElse fun _ =>
      lookupOpts opts "name").getD "project"

/-- Hyphen-to-underscore package-name derivation. -/
def hyphens_to_underscores (s : String) : String :=
  ⟨s.data.map fun c => if c = '-' then '_' else c⟩

/-- Modelled from the spec: resolution order for the package value —
explicit `package` key, else `package_name`, else derived from the
resolved project value by replacing hyphens with underscores (§4.1). -/
def resolve_package_value (opts : Opts) : String :=
  ((lookupOpts opts "package").orElse fun _ =>
    lookupOpts opts "package_name").getD
    (hyphens_to_underscores (resolve_project_value opts))

/-- Modelled from the spec: the recognized placeholder spellings (with
and without interior whitespace, all four name families plus the short
form), tagged `true` for the project value and `false` for the package
value (§4.1).  The brace characters are written with `\x7b`/`\x7d`
escapes. -/
def placeholder_table : List (List Char × Bool) :=
  [(("\x7b\x7b project_name \x7d\x7d").data, true),
   (("\x7b\x7bproject_name\x7d\x7d").data, true),
   (("\x7b\x7b ProjectName \x7d\x7d").data, true),
   (("\x7b\x7bProjectName\x7d\x7d").data, true),
   (("\x7b\x7b package_name \x7d\x7d").data, false),
   (("\x7b\x7bpackage_name\x7d\x7d").data, false),
   (("\x7b\x7b PackageName \x7d\x7d").data, false),
   (("\x7b\x7bPackageName\x7d\x7d").data, false),
   (("\x7b\x7bpackage\x7d\x7d").data, false)]

/-- First table entry whose pattern is a prefix of `l`, returning its tag
and the pattern length. -/
def lookupMatch (tbl : List (List Char × Bool)) (l : List Char) :
    Option (Bool × Nat) :=
  match tbl with
  | [] => none
  | (pat, tag) :: rest =>
      if pat.isPrefixOf l then some (tag, pat.length) else lookupMatch rest l

/-- A successful `lookupMatch` comes from a table entry whose pattern is
a prefix of the input. -/
theorem lookupMatch_some {tbl : List (List Char × Bool)} {l : List Char}
    {tag : Bool} {n : Nat} (h : lookupMatch tbl l = some (tag, n)) :
    ∃ pat, (pat, tag) ∈ tbl ∧ pat.isPrefixOf l = true ∧ n = pat.length := by
  induction tbl with
  | nil => simp [lookupMatch] at h
  | cons hd tl ih =>
      obtain ⟨pat, tg⟩ := hd
      rw [lookupMatch] at h
      split at h
      · rename_i hp
        injection h with h2
        injection h2 with h3 h4
        subst h3; subst h4
        exact ⟨pat, List.mem_cons_self _ _, hp, rfl⟩
      · obtain ⟨p, hmem, hpre, hn⟩ := ih h
        exact ⟨p, List.mem_cons_of_mem _ hmem, hpre, hn⟩

/-- Every pattern in the table is nonempty. -/
theorem placeholder_table_nonnil : ∀ p ∈ placeholder_table, p.1 ≠ [] := by decide

/-- Modelled from the spec: single-pass scanner — at each position,
replace the (unique) recognized placeholder starting there by its value,
otherwise copy the character; unrecognized tokens are copied verbatim
(§4.1). -/
def substAux (proj pkg : String) : List Char → List Char
  | [] => []
  | c :: rest =>
      match h : lookupMatch placeholder_table (c :: rest) with
      | some (tag, n) =>
          (if tag then proj else pkg).data ++ substAux proj pkg ((c :: rest).drop n)
      | none => c :: substAux proj pkg rest
termination_by l => l.length
decreasing_by
  · obtain ⟨pat, hmem, hpre, hn⟩ := lookupMatch_some h
    have hne : pat ≠ [] := placeholder_table_nonnil _ hmem
    have hpos : 1 ≤ n := by
      subst hn
      exact Nat.pos_of_ne_zero fun hz => hne (List.eq_nil_of_length_eq_zero hz)
    have hlt : (c :: rest).length - n < (c :: rest).length :=
      Nat.sub_lt (by simp) hpos
    simpa [List.length_drop] using hlt
  · simp

/-- Modelled from the spec: `_substitute_brace_vars` — substitute every
recognized placeholder in the text with the resolved project or package
value (§4.1). -/
def substitute_brace_vars (text : String) (opts : Opts) : String :=
  ⟨substAux (resolve_project_value opts) (resolve_package_value opts) text.data⟩

/-- Does the text contain an occurrence of any recognized placeholder? -/
def hasAnyPlaceholder (s : String) : Bool :=
  placeholder_table.any fun p => containsSub p.1 s.data

/-! ## Lemmas about the document model -/

/-- Rewriting the blocks of a section does not change which sections
exist. -/
theorem hasSection_mapSectionBlocks (n : String) (f : List Block → List Block)
    (cfg : ConfigUpdater) (m : String) :
    hasSection (mapSectionBlocks n f cfg) m = hasSection cfg m := by
  induction cfg with
  | nil => rfl
  | cons b rest ih =>
      cases b with
      | sec s =>
          by_cases hs : s.name = n
          · simp [mapSectionBlocks, hasSection, hs]
          · simp [mapSectionBlocks, hasSection, hs, ih]
      | comment t => simpa [mapSectionBlocks, hasSection] using ih
      | space k => simpa [mapSectionBlocks, hasSection] using ih

/-- Rewriting the blocks of a section does not move any section. -/
theorem firstSectionIdx_mapSectionBlocks (n : String) (f : List Block → List Block)
    (cfg : ConfigUpdater) (m : String) :
    firstSectionIdx (mapSectionBlocks n f cfg) m = firstSectionIdx cfg m := by
  induction cfg with
  | nil => rfl
  | cons b rest ih =>
      cases b with
      | sec s =>
          by_cases hs : s.name = n
          · simp [mapSectionBlocks, firstSectionIdx, hs]
          · simp [mapSectionBlocks, firstSectionIdx, hs, ih]
      | comment t => simp [mapSectionBlocks, firstSectionIdx, ih]
      | space k => simp [mapSectionBlocks, firstSectionIdx, ih]

/-- Rewriting a section's blocks, seen through `getSection?`. -/
theorem getSection?_mapSectionBlocks_self (n : String) (f : List Block → List Block)
    (cfg : ConfigUpdater) (s : CfgSection) (h : getSection? cfg n = some s) :
    getSection? (mapSectionBlocks n f cfg) n = some ⟨s.name, f s.blocks⟩ := by
  induction cfg with
  | nil => simp [getSection?] at h
  | cons b rest ih =>
      cases b with
      | sec t =>
          by_cases hs : t.name = n
          · simp [getSection?, hs] at h
            subst h
            simp [mapSectionBlocks, hs, getSection?]
          · simp only [getSection?, hs, if_false] at h
            simp only [mapSectionBlocks, hs, if_false, getSection?]
            exact ih h
      | comment t =>
          simp only [getSection?] at h
          simpa [mapSectionBlocks, getSection?] using ih h
      | space k =>
          simp only [getSection?] at h
          simpa [mapSectionBlocks, getSection?] using ih h

/-- A section that exists is found by `getSection?`. -/
theorem getSection?_isSome_of_hasSection (cfg : ConfigUpdater) (n : String)
    (h : hasSection cfg n = true) : ∃ s, getSection? cfg n = some s := by
  induction cfg with
  | nil => simp [hasSection] at h
  | cons b rest ih =>
      cases b with
      | sec t =>
          by_cases hs : t.name = n
          · exact ⟨t, by simp [getSection?, hs]⟩
          · obtain ⟨s, hsome⟩ := ih (by simpa [hasSection, hs] using h)
            exact ⟨s, by simpa [getSection?, hs] using hsome⟩
      | comment t =>
          obtain ⟨s, hsome⟩ := ih (by simpa [hasSection] using h)
          exact ⟨s, by simpa [getSection?] using hsome⟩
      | space k =>
          obtain ⟨s, hsome⟩ := ih (by simpa [hasSection] using h)
          exact ⟨s, by simpa [getSection?] using hsome⟩

/-- Setting the first matching option, seen through `getOptValues`. -/
theorem getOptValues_setFirstOpt (key : String) (vs : List String)
    (blocks : List Block) (h : hasOpt blocks key = true) :
    getOptValues (setFirstOpt key vs blocks) key = some vs := by
  induction blocks with
  | nil => simp [hasOpt] at h
  | cons b rest ih =>
      cases b with
      | opt k old =>
          by_cases hk : k = key
          · simp [setFirstOpt, hk, getOptValues]
          · simp only [setFirstOpt, hk, if_false]
            simpa [getOptValues, hk] using
              ih (by simpa [hasOpt, hk] using h)
      | comment t =>
          simp only [setFirstOpt]
          simpa [getOptValues] using ih (by simpa [hasOpt] using h)
      | space k =>
          simp only [setFirstOpt]
          simpa [getOptValues] using ih (by simpa [hasOpt] using h)

/-- Inserting a section after an existing one makes it exist. -/
theorem hasSection_addSectionAfter_new (cfg : ConfigUpdater) (after name : String)
    (h : hasSection cfg after = true) :
    hasSection (addSectionAfter cfg after name) name = true := by
  induction cfg with
  | nil => simp [hasSection] at h
  | cons b rest ih =>
      cases b with
      | sec s =>
          by_cases hs : s.name = after
          · simp [addSectionAfter, hs, hasSection]
          · simp only [addSectionAfter, hs, if_false]
            simp only [hasSection] at h ⊢
            rcases Bool.or_eq_true_iff.mp h with h' | h'
            · exact absurd (by simpa using h') hs
            · simp [ih h']
      | comment t =>
          simp only [addSectionAfter, hasSection] at h ⊢
          exact ih h
      | space k =>
          simp only [addSectionAfter, hasSection] at h ⊢
          exact ih h

/-- The freshly inserted section sits at the position right after the
first section with the reference name. -/
theorem firstSectionIdx_addSectionAfter (cfg : ConfigUpdater) (after name : String)
    (habs : hasSection cfg name = false) (hpres : hasSection cfg after = true) :
    firstSectionIdx (addSectionAfter cfg after name) name =
      (firstSectionIdx cfg after).map (· + 1) := by
  induction cfg with
  | nil => simp [hasSection] at hpres
  | cons b rest ih =>
      cases b with
      | sec s =>
          have hsname : s.name ≠ name := by
            intro hh
            simp [hasSection, hh] at habs
          by_cases hs : s.name = after
          · have han : after ≠ name := hs ▸ hsname
            simp [addSectionAfter, hs, firstSectionIdx, hsname, Ne.symm han, han]
          · have habs' : hasSection rest name = false := by
              simpa [hasSection, hsname] using habs
            have hpres' : hasSection rest after = true := by
              simpa [hasSection, hs] using hpres
            simp [addSectionAfter, hs, firstSectionIdx, hsname, ih habs' hpres',
              Option.map_map]
      | comment t =>
          have habs' : hasSection rest name = false := by simpa [hasSection] using habs
          have hpres' : hasSection rest after = true := by simpa [hasSection] using hpres
          simp [addSectionAfter, firstSectionIdx, ih habs' hpres', Option.map_map]
      | space k =>
          have habs' : hasSection rest name = false := by simpa [hasSection] using habs
          have hpres' : hasSection rest after = true := by simpa [hasSection] using hpres
          simp [addSectionAfter, firstSectionIdx, ih habs' hpres', Option.map_map]

/-- The freshly inserted section is found empty by `getSection?`. -/
theorem getSection?_addSectionAfter (cfg : ConfigUpdater) (after name : String)
    (habs : hasSection cfg name = false) (hpres : hasSection cfg after = true) :
    getSection? (addSectionAfter cfg after name) name = some ⟨name, []⟩ := by
  induction cfg with
  | nil => simp [hasSection] at hpres
  | cons b rest ih =>
      cases b with
      | sec s =>
          have hsname : s.name ≠ name := by
            intro hh
            simp [hasSection, hh] at habs
          by_cases hs : s.name = after
          · have han : after ≠ name := hs ▸ hsname
            simp [addSectionAfter, hs, getSection?, hsname, Ne.symm han, han]
          · have habs' : hasSection rest name = false := by
              simpa [hasSection, hsname] using habs
            have hpres' : hasSection rest after = true := by
              simpa [hasSection, hs] using hpres
            simp [addSectionAfter, hs, getSection?, hsname, ih habs' hpres']
      | comment t =>
          have habs' : hasSection rest name = false := by simpa [hasSection] using habs
          have hpres' : hasSection rest after = true := by simpa [hasSection] using hpres
          simp [addSectionAfter, getSection?, ih habs' hpres']
      | space k =>
          have habs' : hasSection rest name = false := by simpa [hasSection] using habs
          have hpres' : hasSection rest after = true := by simpa [hasSection] using hpres
          simp [addSectionAfter, getSection?, ih habs' hpres']

/-- Destructing a successful monadic bind over `Except String`. -/
theorem exceptBind_ok_iff {α β : Type} {e : Except String α}
    {f : α → Except String β} {b : β} :
    (e >>= f) = .ok b ↔ ∃ a, e = .ok a ∧ f a = .ok b := by
  cases e <;> simp [Bind.bind, Except.bind]

/-! ## Claim C8: dependency injection replaces `install_requires` -/

/-- C8. For every setup.cfg document with an `[options]` section
containing an `install_requires` entry, `add_install_requires` succeeds
and sets the value list of that entry to exactly the fixed version-pinned
dependency list `REQUIREMENT_DEPENDENCIES` (click, pytest, pytest-cov,
importlib-metadata), entirely replacing any prior value. -/
theorem C8_dependency_injection (setupcfg : ConfigUpdater) (opts : Opts)
    (s : CfgSection) (hs : getSection? setupcfg "options" = some s)
    (ho : hasOpt s.blocks "install_requires" = true) :
    (add_install_requires setupcfg opts).isOk = true ∧
    ∀ cfg', add_install_requires setupcfg opts = .ok cfg' →
      (getSection? cfg' "options").map
        (fun t => getOptValues t.blocks "install_requires") =
      some (some REQUIREMENT_DEPENDENCIES) := by
  have hrun : add_install_requires setupcfg opts =
      .ok (mapSectionBlocks "options"
            (setFirstOpt "install_requires" REQUIREMENT_DEPENDENCIES) setupcfg) := by
    rw [add_install_requires, hs]
    simp [ho]
  refine ⟨by simp [hrun, Except.isOk, Except.toBool], ?_⟩
  intro cfg' h
  rw [hrun] at h
  injection h with h
  subst h
  rw [getSection?_mapSectionBlocks_self _ _ _ _ hs]
  simp [getOptValues_setFirstOpt _ _ _ ho]

/-- Concrete instance for C8: a document whose `install_requires` had a
prior value ends up with exactly the fixed dependency list. -/
def C8doc : ConfigUpdater :=
  [.sec ⟨"options", [.opt "install_requires" ["old-dependency"]]⟩]

/-- Result of `add_install_requires` on `C8doc`. -/
def C8out : ConfigUpdater :=
  [.sec ⟨"options", [.opt "install_requires" REQUIREMENT_DEPENDENCIES]⟩]

/-- Witness for C8 at a concrete document. -/
theorem C8_dependency_injection_witness :
    (getSection? C8out "options").map
      (fun t => getOptValues t.blocks "install_requires") =
    some (some REQUIREMENT_DEPENDENCIES) :=
  (C8_dependency_injection C8doc []
    ⟨"options", [.opt "install_requires" ["old-dependency"]]⟩ rfl rfl).2 C8out rfl

/-! ## Claim C9: the structured-config patcher's contract on content -/

/-- C9. `modify_setupcfg` fails with the fatal content-required
`ValueError` whenever the resolved content of the leaf is `None`, and
whenever it returns patched text it pairs it with the leaf's original
write policy unchanged. -/
theorem C9_content_required_and_policy (definition : Leaf) (opts : Opts) :
    ((resolve_leaf definition).1 = none →
      modify_setupcfg definition opts =
        .error "ValueError: File contents for setup.cfg should not be None") ∧
    ∀ txt op, modify_setupcfg definition opts = .ok (txt, op) →
      op = (resolve_leaf definition).2 := by
  rcases hdef : resolve_leaf definition with ⟨contents, op0⟩
  constructor
  · intro h
    simp only at h
    subst h
    rw [modify_setupcfg, hdef]
  · intro txt op h
    rw [modify_setupcfg, hdef] at h
    cases contents with
    | none => simp at h
    | some c =>
        simp only at h
        rw [exceptBind_ok_iff] at h
        obtain ⟨d0, _, h⟩ := h
        rw [exceptBind_ok_iff] at h
        obtain ⟨d1, _, h⟩ := h
        rw [exceptBind_ok_iff] at h
        obtain ⟨d2, _, h⟩ := h
        rw [exceptBind_ok_iff] at h
        obtain ⟨d3, _, h⟩ := h
        injection h with h
        exact (congrArg Prod.snd h).symm

/-- Concrete leaves for the C9 witness. -/
def C9leafNone : Leaf := .content none

/-- A concrete setup.cfg leaf with inline text and `no_overwrite`. -/
def C9leaf : Leaf :=
  .withOp (some (.text "[options]\ninstall_requires =\n")) .noOverwrite

/-- The options used in the C9 witness. -/
def C9opts : Opts := [("package", "my_package")]

/-- The patched text produced from `C9leaf`. -/
def C9txt : String :=
  "[options]\n# Minimum Python Version 3.9 required\npython_requires = >=3.9,<3.13\ninstall_requires =\n    importlib-metadata; python_version>\"3.9\"\n    click>=8.0\n    pytest\n    pytest-cov\n[options.entry_points]\nconsole_scripts = my_package = my_package.cli:cli\n"

set_option maxRecDepth 100000 in
/-- Witness for C9: the `None`-content leaf hits the fatal error, and a
present-content leaf keeps its original `no_overwrite` policy. -/
theorem C9_content_required_and_policy_witness :
    modify_setupcfg C9leafNone C9opts =
      .error "ValueError: File contents for setup.cfg should not be None" ∧
    FileOp.noOverwrite = (resolve_leaf C9leaf).2 :=
  ⟨(C9_content_required_and_policy C9leafNone C9opts).1 rfl,
   (C9_content_required_and_policy C9leaf C9opts).2 C9txt .noOverwrite rfl⟩

/-! ## Claim C1: entry-point injection -/

/-- C1. For every options mapping with a `package` key and every
parsed setup.cfg document with an `[options]` section, `add_entry_point`
succeeds, ensures an `options.entry_points` section exists (created
immediately after the `[options]` section when absent), ensures a
`console_scripts` entry is the first entry of that section, and sets its
value to exactly `<package> = <package>.cli:cli`. -/
theorem C1_entry_point_injection (doc : ConfigUpdater) (opts : Opts) (p : String)
    (hp : lookupOpts opts "package" = some p)
    (hopt : hasSection doc "options" = true) :
    (add_entry_point doc opts).isOk = true ∧
    ∀ doc', add_entry_point doc opts = .ok doc' →
      hasSection doc' "options.entry_points" = true ∧
      (hasSection doc "options.entry_points" = false →
        firstSectionIdx doc' "options.entry_points" =
          (firstSectionIdx doc "options").map (· + 1)) ∧
      (getSection? doc' "options.entry_points").map (fun s => s.blocks.head?) =
        some (some (.opt "console_scripts" [p ++ " = " ++ p ++ ".cli:cli"])) := by
  by_cases heps : hasSection doc "options.entry_points" = true
  · obtain ⟨s, hgs⟩ := getSection?_isSome_of_hasSection doc _ heps
    constructor
    · simp [add_entry_point, heps, hp, Bind.bind, Except.bind, Except.isOk,
        Except.toBool]
    · intro doc' h
      simp [add_entry_point, heps, hp, Bind.bind, Except.bind] at h
      subst h
      refine ⟨?_, ?_, ?_⟩
      · rw [hasSection_mapSectionBlocks, hasSection_mapSectionBlocks]
        exact heps
      · intro hfalse
        rw [heps] at hfalse
        cases hfalse
      · have h2 := getSection?_mapSectionBlocks_self "options.entry_points"
          (fun bs => .opt "console_scripts" [] :: bs) doc s hgs
        have h3 := getSection?_mapSectionBlocks_self "options.entry_points"
          (setFirstOpt "console_scripts" [p ++ " = " ++ p ++ ".cli:cli"]) _ _ h2
        rw [h3]
        simp [setFirstOpt]
  · have heps' : hasSection doc "options.entry_points" = false := by
      simpa using heps
    constructor
    · simp [add_entry_point, heps', hopt, hp, Bind.bind, Except.bind,
        Except.isOk, Except.toBool]
    · intro doc' h
      simp [add_entry_point, heps', hopt, hp, Bind.bind, Except.bind] at h
      subst h
      have hadd := getSection?_addSectionAfter doc "options"
        "options.entry_points" heps' hopt
      have h2 := getSection?_mapSectionBlocks_self "options.entry_points"
        (fun bs => .opt "console_scripts" [] :: bs) _ _ hadd
      have h3 := getSection?_mapSectionBlocks_self "options.entry_points"
        (setFirstOpt "console_scripts" [p ++ " = " ++ p ++ ".cli:cli"]) _ _ h2
      refine ⟨?_, ?_, ?_⟩
      · rw [hasSection_mapSectionBlocks, hasSection_mapSectionBlocks]
        exact hasSection_addSectionAfter_new doc "options" _ hopt
      · intro _
        rw [firstSectionIdx_mapSectionBlocks, firstSectionIdx_mapSectionBlocks]
        exact firstSectionIdx_addSectionAfter doc "options" _ heps' hopt
      · rw [h3]
        simp [setFirstOpt]

/-- Concrete document for the C1 witness: `[options]` only. -/
def C1doc : ConfigUpdater := [.sec ⟨"options", []⟩]

/-- Result of `add_entry_point` on `C1doc` with package `pkg`. -/
def C1out : ConfigUpdater :=
  [.sec ⟨"options", []⟩,
   .sec ⟨"options.entry_points", [.opt "console_scripts" ["pkg = pkg.cli:cli"]]⟩]

/-- Witness for C1 at a concrete document without an entry-points
section. -/
theorem C1_entry_point_injection_witness :
    hasSection C1out "options.entry_points" = true ∧
    (hasSection C1doc "options.entry_points" = false →
      firstSectionIdx C1out "options.entry_points" =
        (firstSectionIdx C1doc "options").map (· + 1)) ∧
    (getSection? C1out "options.entry_points").map (fun s => s.blocks.head?) =
      some (some (.opt "console_scripts" ["pkg" ++ " = " ++ "pkg" ++ ".cli:cli"])) :=
  (C1_entry_point_injection C1doc [("package", "pkg")] "pkg" rfl rfl).2 C1out rfl

/-! ## Claim C2: the patch sequence is not idempotent -/

/-- The ordered modifier chain of `modify_setupcfg` (the `reduce` over
`(add_install_requires, py_requires, add_entry_point)`). -/
def patch_sequence (setupcfg : ConfigUpdater) (opts : Opts) :
    Except String ConfigUpdater := do
  let s1 ← add_install_requires setupcfg opts
  let s2 ← py_requires s1 opts
  add_entry_point s2 opts

/-- Number of option blocks with the given key in a block list. -/
def countOptBlocks (blocks : List Block) (key : String) : Nat :=
  blocks.countP fun b => match b with
    | .opt k _ => k = key
    | _ => false

/-- Number of comment blocks with the given text in a block list. -/
def countCommentBlocks (blocks : List Block) (text : String) : Nat :=
  blocks.countP fun b => match b with
    | .comment t => t = text
    | _ => false

/-- Option-block count inside the first section with the given name. -/
def countOptInSection (cfg : ConfigUpdater) (name key : String) : Nat :=
  match getSection? cfg name with
  | some s => countOptBlocks s.blocks key
  | none => 0

/-- Comment-block count inside the first section with the given name. -/
def countCommentInSection (cfg : ConfigUpdater) (name text : String) : Nat :=
  match getSection? cfg name with
  | some s => countCommentBlocks s.blocks text
  | none => 0

/-- The options used for the C2 evaluation. -/
def C2opts : Opts := [("package", "my_package")]

/-- Minimal already-parsed setup.cfg: `[options]` with an empty
`install_requires`. -/
def C2doc0 : ConfigUpdater := [.sec ⟨"options", [.opt "install_requires" []]⟩]

/-- C2 (code evaluation). One application of the patch sequence
leaves exactly one `python_requires` entry, one minimum-version comment
and one `console_scripts` entry — but applying the same sequence again
duplicates all three, contradicting the claimed idempotence. -/
theorem C2_reapplication_duplicates :
    (patch_sequence C2doc0 C2opts).map
      (fun d => (countOptInSection d "options" "python_requires",
                 countCommentInSection d "options"
                   "# Minimum Python Version 3.9 required",
                 countOptInSection d "options.entry_points" "console_scripts")) =
      .ok (1, 1, 1) ∧
    ((patch_sequence C2doc0 C2opts).bind (fun d => patch_sequence d C2opts)).map
      (fun d => (countOptInSection d "options" "python_requires",
                 countCommentInSection d "options"
                   "# Minimum Python Version 3.9 required",
                 countOptInSection d "options.entry_points" "console_scripts")) =
      .ok (2, 2, 2) := by
  constructor <;> rfl

/-! ## Claim C3: a tree without `setup.cfg` makes `add_files` fail -/

/-- C3 (amended). When the input tree has no `setup.cfg` entry the
add-files step is *not* skipped cleanly: the unconditional
`struct["setup.cfg"]` subscript fails with a `KeyError` and the whole
step aborts. -/
theorem C3_missing_setupcfg_fails (struct : Structure) (opts : Opts) (p : String)
    (hp : lookupOpts opts "package" = some p)
    (h : lookupS struct "setup.cfg" = none) :
    add_files struct opts = .error "KeyError: setup.cfg" := by
  simp [add_files, hp, h, Bind.bind, Except.bind]

/-- Concrete manifest-only tree (no `setup.cfg`). -/
def C3struct : Structure :=
  [("pyproject.toml", .file (.withOp (some (.text "[project]\nname = demo\n")) .create))]

/-- The options used in the C3 evaluation. -/
def C3opts : Opts := [("package", "my_package")]

/-- C3 (counterexample). On a concrete manifest-only tree the
add-files step errors instead of completing, refuting the claimed clean
skip. -/
theorem C3_missing_setupcfg_fails_counterexample :
    add_files C3struct C3opts = .error "KeyError: setup.cfg" := rfl

/-- Witness for the amended C3 theorem at a second concrete input. -/
theorem C3_missing_setupcfg_fails_witness :
    add_files [] C3opts = .error "KeyError: setup.cfg" :=
  C3_missing_setupcfg_fails [] C3opts "my_package" rfl rfl

/-! ## Claim C4: the ignore-file patch writes no explanatory comment -/

/-- The options used for the C4 evaluation. -/
def C4opts : Opts := [("package", "my_package")]

/-- A tree with a plain `.gitignore`. -/
def C4struct : Structure :=
  [(".gitignore", .file (.withOp (some (.text "*.pyc\n")) .create))]

/-- A tree whose `.gitignore` content resolves to `None`. -/
def C4structNone : Structure := [(".gitignore", .file (.content none))]

/-- C4 (code evaluation). `modify_gitignore` appends the bare ignore
entry with no explanatory comment at all (the resulting text contains no
`#` character), and content that is absent (`None`) makes it raise a
`TypeError` instead of being treated as an empty document — both contrary
to the claim (and to the repository's own unit tests, which expect a
`# Generated by setuptools_scm` comment and accept absent content). -/
theorem C4_no_comment_and_none_fails :
    modify_gitignore C4struct C4opts =
      .ok ([(".gitignore",
             .file (.withOp (some (.text "*.pyc\nsrc/my_package/_version.py\n"))
               .create))], C4opts) ∧
    countOccurStr "#" "*.pyc\nsrc/my_package/_version.py\n" = 0 ∧
    modify_gitignore C4structNone C4opts =
      .error "TypeError: Expected string for .gitignore, got NoneType" :=
  ⟨rfl, by decide, rfl⟩

/-! ## Claim C7: the registered pipeline order -/

/-- Inserting after `define_structure` when the prefix does not contain
it. -/
theorem insertAfterId_append (pre post : List PAction) (a : PAction)
    (hpre : ∀ x ∈ pre, actionId x ≠ "define_structure") :
    insertAfterId (pre ++ .hostAction "define_structure" :: post)
        "define_structure" a =
      pre ++ .hostAction "define_structure" :: a :: post := by
  induction pre with
  | nil => simp [insertAfterId, actionId]
  | cons b rest ih =>
      have hb := hpre b (by simp)
      simp only [List.cons_append, insertAfterId, hb, if_false, ite_false]
      exact congrArg (b :: ·) (ih fun x hx => hpre x (by simp [hx]))

/-- Fact: `register` on a list containing `define_structure` inserts right
after it. -/
theorem register_append (pre post : List PAction) (a : PAction)
    (hpre : ∀ x ∈ pre, actionId x ≠ "define_structure") :
    register (pre ++ .hostAction "define_structure" :: post) a =
      .ok (pre ++ .hostAction "define_structure" :: a :: post) := by
  have hany : (pre ++ PAction.hostAction "define_structure" :: post).any
      (fun b => actionId b = "define_structure") = true := by
    simp [List.any_append, actionId]
  rw [register, if_pos hany, insertAfterId_append pre post a hpre]

/-- C7 (amended). `activate` registers `add_files`, `reject_file`,
`modify_pyproject_toml`, `modify_gitignore`, `remove_setup_py` in that
order, each inserted immediately after the host's `define_structure`
action (the host's default insertion point), so the resulting execution
order is the reverse: `remove_setup_py`, `modify_gitignore`,
`modify_pyproject_toml`, `reject_file`, `add_files`.  The rejection
steps are interleaved with — not strictly after — the patch steps, and
`add_files` runs last. -/
theorem C7_activation_order (pre post : List PAction)
    (hpre : ∀ x ∈ pre, actionId x ≠ "define_structure") :
    activate (pre ++ .hostAction "define_structure" :: post) =
      .ok (pre ++ .hostAction "define_structure" ::
        .remove_setup_py :: .modify_gitignore :: .modify_pyproject_toml ::
        .reject_file :: .add_files :: post) := by
  have h1 := register_append pre post .add_files hpre
  have h2 := register_append pre (PAction.add_files :: post) .reject_file hpre
  have h3 := register_append pre
    (PAction.reject_file :: PAction.add_files :: post) .modify_pyproject_toml hpre
  have h4 := register_append pre
    (PAction.modify_pyproject_toml :: PAction.reject_file ::
      PAction.add_files :: post) .modify_gitignore hpre
  have h5 := register_append pre
    (PAction.modify_gitignore :: PAction.modify_pyproject_toml ::
      PAction.reject_file :: PAction.add_files :: post) .remove_setup_py hpre
  simp [activate, Bind.bind, Except.bind, h1, h2, h3, h4, h5]

/-- A concrete host action list. -/
def C7host : List PAction :=
  [.hostAction "get_default_options", .hostAction "define_structure",
   .hostAction "version_migration", .hostAction "create_structure"]

/-- The action list produced by `activate` on `C7host`. -/
def C7result : List PAction :=
  [.hostAction "get_default_options", .hostAction "define_structure",
   .remove_setup_py, .modify_gitignore, .modify_pyproject_toml,
   .reject_file, .add_files,
   .hostAction "version_migration", .hostAction "create_structure"]

/-- C7 (counterexample). On a concrete host list the rejection step
`remove_setup_py` is scheduled *before* the ignore-file patch, and
`add_files` comes after every patch step — refuting the claimed order
(additions first, then patches, rejections last). -/
theorem C7_activation_order_counterexample :
    activate C7host = .ok C7result ∧
    C7result.indexOf PAction.remove_setup_py <
      C7result.indexOf PAction.modify_gitignore ∧
    C7result.indexOf PAction.modify_gitignore <
      C7result.indexOf PAction.add_files :=
  ⟨rfl, by decide, by decide⟩

/-- Witness for the amended C7 theorem at a concrete host list. -/
theorem C7_activation_order_witness :
    activate [PAction.hostAction "define_structure"] =
      .ok [.hostAction "define_structure", .remove_setup_py, .modify_gitignore,
           .modify_pyproject_toml, .reject_file, .add_files] :=
  C7_activation_order [] [] (by simp)

/-! ## Claim C10: the pyproject patch only touches `pyproject.toml` -/

/-- Write policy of the file leaf at a key, if any. -/
def leafOpAt (struct : Structure) (k : String) : Option FileOp :=
  match lookupS struct k with
  | some (.file l) => some (resolve_leaf l).2
  | _ => none

/-- Fact: `setEntry` leaves every other key untouched. -/
theorem lookupS_setEntry_ne (struct : Structure) (k : String) (v : Node)
    (k' : String) (h : k' ≠ k) :
    lookupS (setEntry struct k v) k' = lookupS struct k' := by
  induction struct with
  | nil => simp [setEntry, lookupS, List.find?, Ne.symm h]
  | cons p rest ih =>
      obtain ⟨k0, v0⟩ := p
      by_cases hk : k0 = k
      · subst hk
        simp [setEntry, lookupS, List.find?, Ne.symm h]
      · simp only [setEntry, hk, if_false, ite_false]
        simp only [lookupS, List.find?] at ih ⊢
        by_cases hk' : k0 = k'
        · simp [hk']
        · simp only [show (decide (k0 = k')) = false by simp [hk']]
          exact ih

/-- Fact: `setEntry` makes the key map to the new node. -/
theorem lookupS_setEntry_self (struct : Structure) (k : String) (v : Node) :
    lookupS (setEntry struct k v) k = some v := by
  induction struct with
  | nil => simp [setEntry, lookupS, List.find?]
  | cons p rest ih =>
      obtain ⟨k0, v0⟩ := p
      by_cases hk : k0 = k
      · subst hk
        simp [setEntry, lookupS, List.find?]
      · simp only [setEntry, hk, if_false, ite_false]
        simp only [lookupS, List.find?] at ih ⊢
        simp only [show (decide (k0 = k)) = false by simp [hk]]
        exact ih

/-- C10. The pyproject patch step returns the options unchanged and
changes at most the `pyproject.toml` entry of the tree: when the entry is
absent both tree and options are returned untouched; when the step
succeeds, every other key keeps its entry and the patched leaf keeps the
original leaf's write policy. -/
theorem C10_pyproject_frame (struct : Structure) (opts : Opts) :
    (lookupS struct "pyproject.toml" = none →
      modify_pyproject_toml struct opts = .ok (struct, opts)) ∧
    ∀ struct' opts', modify_pyproject_toml struct opts = .ok (struct', opts') →
      opts' = opts ∧
      (∀ k, k ≠ "pyproject.toml" → lookupS struct' k = lookupS struct k) ∧
      ∀ l, lookupS struct "pyproject.toml" = some (.file l) →
        leafOpAt struct' "pyproject.toml" = some (resolve_leaf l).2 := by
  rcases hl : lookupS struct "pyproject.toml" with _ | node
  · refine ⟨fun _ => by rw [modify_pyproject_toml, hl], ?_⟩
    intro struct' opts' h
    rw [modify_pyproject_toml, hl] at h
    injection h with h
    obtain ⟨h1, h2⟩ := Prod.mk.injEq .. ▸ h
    refine ⟨by rw [← h2], fun k _ => by rw [← h1], fun l hll => ?_⟩
    simp [hl] at hll
  · constructor
    · intro hnone
      simp at hnone
    intro struct' opts' h
    rw [modify_pyproject_toml, hl] at h
    cases node with
    | dir d => simp at h
    | file l =>
        rcases hrl : resolve_leaf l with ⟨c?, op0⟩
        simp only [hrl] at h
        cases c? with
        | none => simp at h
        | some c =>
            simp only [exceptBind_ok_iff] at h
            obtain ⟨doc, -, h⟩ := h
            rcases hpk : lookupOpts opts "package" with _ | p
            · simp only [hpk] at h
              simp at h
            · simp only [hpk, Except.ok.injEq] at h
              obtain ⟨h1, h2⟩ := Prod.mk.injEq .. ▸ h
              refine ⟨h2.symm, ?_, ?_⟩
              · intro k hk
                rw [← h1]
                exact lookupS_setEntry_ne struct _ _ k hk
              · intro l' hll
                injection hll with hll
                injection hll with hll
                subst hll
                rw [← h1, hrl]
                simp [leafOpAt, lookupS_setEntry_self, resolve_leaf]

/-- The options used in the C10 witness. -/
def C10opts : Opts := [("package", "my_package")]

/-- A concrete tree with a `pyproject.toml` and a second, unrelated
entry. -/
def C10struct : Structure :=
  [("pyproject.toml", .file (.withOp
      (some (.text "[build-system]\nrequires = setuptools\n\n[project]\nname = test\n"))
      .create)),
   ("README.md", .file (.withOp (some (.text "readme")) .noOverwrite))]

/-- The patched `pyproject.toml` text produced from `C10struct`. -/
def C10rendered : String :=
  "[build-system]\nrequires = setuptools\n\n[project]\nname = test\n[tool.setuptools_scm]\nversion_scheme = \"guess-next-dev\"\nlocal_scheme = \"node-and-date\"\nwrite_to = \"src/my_package/_version.py\"\n\n[tool.black]\nline-length = 120\ntarget-version = [\"py312\"]\nskip-string-normalization = true\n\n[tool.pytest.ini_options]\nlog_cli = true\nlog_cli_level = \"INFO\"\nlog_cli_format = \"%(asctime)s [%(levelname)8s] %(message)s (%(filename)s:%(lineno)s)\"\nlog_cli_date_format = \"%d/%m/%Y %H:%M:%S\"\n"

/-- The tree produced by the pyproject patch step on `C10struct`. -/
def C10out : Structure :=
  [("pyproject.toml", .file (.withOp (some (.text C10rendered)) .create)),
   ("README.md", .file (.withOp (some (.text "readme")) .noOverwrite))]

set_option maxRecDepth 100000 in
/-- Witness for C10: the absent case returns everything unchanged, and on
a concrete present case the unrelated entry is untouched. -/
theorem C10_pyproject_frame_witness :
    modify_pyproject_toml [] C10opts = .ok ([], C10opts) ∧
    lookupS C10out "README.md" = lookupS C10struct "README.md" :=
  ⟨(C10_pyproject_frame [] C10opts).1 rfl,
   ((C10_pyproject_frame C10struct C10opts).2 C10out C10opts rfl).2.1
     "README.md" (by decide)⟩

/-! ## Order aliases for the list front-segment and segment relations -/

/-- Bridge from the boolean front-segment test to its ordering. -/
theorem isPrefixOf_eq {l₁ l₂ : List Char} :
    l₁.isPrefixOf l₂ = true ↔ l₁ <+: l₂ :=
  List.isPrefixOf_iff_prefix

/-- A list is a front segment of itself followed by anything. -/
theorem pref_append (l t : List Char) : l <+: l ++ t :=
  List.prefix_append l t

/-- Reflexivity of the front-segment order. -/
theorem pref_rfl (l : List Char) : l <+: l :=
  List.prefix_refl l

/-- Two front segments of the same list are comparable. -/
theorem pref_total {l₁ l₂ l₃ : List Char} (h₁ : l₁ <+: l₃) (h₂ : l₂ <+: l₃) :
    l₁ <+: l₂ ∨ l₂ <+: l₁ :=
  List.prefix_or_prefix_of_prefix h₁ h₂

/-- A segment of a list is a segment of any extension at the front. -/
theorem inf_cons {l₁ l₂ : List Char} {a : Char} (h : l₁ <:+: l₂) :
    l₁ <:+: a :: l₂ :=
  List.infix_cons h

/-- Reflexivity of the segment order. -/
theorem inf_rfl (l : List Char) : l <:+: l :=
  List.infix_refl l

/-! ## Occurrence-counting lemmas (for the ignore-file claims) -/

/-- The empty needle occurs everywhere. -/
theorem countOccur_nil_left (s : List Char) : countOccur [] s = s.length + 1 := by
  induction s with
  | nil => simp [countOccur]
  | cons c rest ih =>
      rw [countOccur]
      simp [List.isPrefixOf, ih]
      omega

/-- A cons adds at most one occurrence. -/
theorem countOccur_le_cons (n : List Char) (c : Char) (s : List Char) :
    countOccur n s ≤ countOccur n (c :: s) := by
  rw [countOccur]
  exact Nat.le_add_left _ _

/-- An explicit occurrence makes the count positive. -/
theorem countOccur_append_ne_zero (n pre post : List Char) :
    countOccur n (pre ++ n ++ post) ≠ 0 := by
  induction pre with
  | nil =>
      cases n with
      | nil => simp [countOccur_nil_left]
      | cons c m =>
          rw [List.nil_append, List.cons_append, countOccur]
          have hpre : (c :: m).isPrefixOf (c :: (m ++ post)) = true := by
            rw [isPrefixOf_eq]
            exact ⟨post, by simp⟩
          rw [hpre]
          simp
  | cons c pre ih =>
      rw [List.cons_append, List.cons_append, countOccur]
      intro h
      exact ih (by omega)

/-- A positive count exhibits the needle as an infix. -/
theorem infix_of_countOccur_ne_zero (n s : List Char)
    (h : countOccur n s ≠ 0) : n <:+: s := by
  induction s with
  | nil =>
      rw [countOccur] at h
      by_cases hn : n = []
      · simp [hn]
      · simp [hn] at h
  | cons c rest ih =>
      rw [countOccur] at h
      by_cases hp : n.isPrefixOf (c :: rest) = true
      · exact (isPrefixOf_eq.mp hp).isInfix
      · rw [Bool.eq_false_iff.mpr hp] at h
        simp only [Bool.false_eq_true, if_false, ite_false, Nat.zero_add] at h
        exact (ih h).trans (inf_cons (inf_rfl rest))

/-- Zero occurrences is inherited by infixes. -/
theorem countOccur_zero_of_seg (n s t : List Char) (hst : t <:+: s)
    (h : countOccur n s = 0) : countOccur n t = 0 := by
  by_contra h'
  obtain ⟨pre, post, heq⟩ := (infix_of_countOccur_ne_zero n t h').trans hst
  apply countOccur_append_ne_zero n pre post
  rw [heq]
  exact h

/-- A haystack shorter than the needle holds no occurrence. -/
theorem countOccur_zero_of_short (n s : List Char) (h : s.length < n.length) :
    countOccur n s = 0 := by
  induction s with
  | nil =>
      rw [countOccur]
      have hne : n ≠ [] := by
        intro hn
        rw [hn] at h
        simp at h
      simp [hne]
  | cons c rest ih =>
      rw [countOccur]
      have hp : n.isPrefixOf (c :: rest) = false := by
        rw [Bool.eq_false_iff]
        intro hpre
        have hle := (isPrefixOf_eq.mp hpre).length_le
        rw [List.length_cons] at hle h
        omega
      rw [hp]
      simp only [Bool.false_eq_true, if_false, ite_false, Nat.zero_add]
      apply ih
      rw [List.length_cons] at h
      omega

/-- Equal length but different content holds no occurrence. -/
theorem countOccur_zero_of_length_eq (n s : List Char) (hlen : s.length = n.length)
    (hne : s ≠ n) : countOccur n s = 0 := by
  cases s with
  | nil =>
      cases n with
      | nil => exact absurd rfl hne
      | cons c m => simp at hlen
  | cons c rest =>
      rw [countOccur]
      have hp : n.isPrefixOf (c :: rest) = false := by
        rw [Bool.eq_false_iff]
        intro hpre
        have hpre' := isPrefixOf_eq.mp hpre
        exact hne (hpre'.eq_of_length (by omega)).symm
      rw [hp]
      simp only [Bool.false_eq_true, if_false, ite_false, Nat.zero_add]
      apply countOccur_zero_of_short
      rw [List.length_cons] at hlen
      omega

/-- Crossing a newline separator: occurrences in `a ++ '\n' :: b` are
exactly those of `'\n' :: b` when `a` is occurrence-free and the needle
contains no newline. -/
theorem countOccur_append_newline (n a b : List Char) (hnl : '\n' ∉ n)
    (ha : countOccur n a = 0) :
    countOccur n (a ++ '\n' :: b) = countOccur n ('\n' :: b) := by
  induction a with
  | nil => simp
  | cons c a' ih =>
      rw [countOccur] at ha
      have hhead : n.isPrefixOf (c :: a') = false := by
        by_cases hb : n.isPrefixOf (c :: a') = true
        · rw [hb] at ha
          simp at ha
        · exact Bool.eq_false_iff.mpr hb
      have ha' : countOccur n a' = 0 := by
        rw [hhead] at ha
        simpa using ha
      rw [List.cons_append, countOccur]
      have hhead2 : n.isPrefixOf (c :: (a' ++ '\n' :: b)) = false := by
        rw [Bool.eq_false_iff]
        intro hpreb
        have hpre' := isPrefixOf_eq.mp hpreb
        have hstart : (c :: a') <+: (c :: a') ++ ('\n' :: b) := pref_append _ _
        rw [show c :: (a' ++ '\n' :: b) = (c :: a') ++ ('\n' :: b) from rfl] at hpre'
        rcases pref_total hpre' hstart with h1 | h2
        · exact absurd (isPrefixOf_eq.mpr h1) (by simp [hhead])
        · obtain ⟨rest, hrest⟩ := h2
          cases rest with
          | nil =>
              rw [List.append_nil] at hrest
              rw [← hrest] at hhead
              have hself : (c :: a').isPrefixOf (c :: a') = true :=
                isPrefixOf_eq.mpr (pref_rfl _)
              rw [hhead] at hself
              cases hself
          | cons r0 rs =>
              have hrpre : (r0 :: rs) <+: ('\n' :: b) := by
                obtain ⟨u, hu⟩ := hpre'
                rw [← hrest, List.append_assoc] at hu
                exact ⟨u, List.append_cancel_left hu⟩
              have hr0 : r0 = '\n' := by
                obtain ⟨u, hu⟩ := hrpre
                simpa using congrArg List.head? hu
              apply hnl
              rw [← hrest, hr0]
              simp
      rw [hhead2]
      simp only [Bool.false_eq_true, if_false, ite_false, Nat.zero_add]
      exact ih ha'

/-- The needle occurs exactly once in `n ++ ['\n']` when it holds no
newline. -/
theorem countOccur_self_newline (n : List Char) (hne : n ≠ []) (hnl : '\n' ∉ n) :
    countOccur n (n ++ ['\n']) = 1 := by
  cases n with
  | nil => exact absurd rfl hne
  | cons c m =>
      rw [List.cons_append, countOccur]
      have hpre : (c :: m).isPrefixOf (c :: (m ++ ['\n'])) = true := by
        rw [isPrefixOf_eq]
        exact ⟨['\n'], by simp⟩
      rw [hpre]
      have hzero : countOccur (c :: m) (m ++ ['\n']) = 0 := by
        apply countOccur_zero_of_length_eq
        · simp
        · intro heq
          apply hnl
          rw [← heq]
          simp
      simp [hzero]

/-- No occurrence can start at a newline when the needle has none. -/
theorem countOccur_cons_newline (n b : List Char) (hne : n ≠ []) (hnl : '\n' ∉ n) :
    countOccur n ('\n' :: b) = countOccur n b := by
  rw [countOccur]
  have hp : n.isPrefixOf ('\n' :: b) = false := by
    rw [Bool.eq_false_iff]
    intro hpreb
    obtain ⟨u, hu⟩ := isPrefixOf_eq.mp hpreb
    cases n with
    | nil => exact hne rfl
    | cons c m =>
        injection hu with h1 _
        exact hnl (by rw [h1]; exact List.mem_cons_self _ _)
  rw [hp]
  simp

/-- Fact: `pystrip` yields an infix of the original text. -/
theorem pystrip_data_seg (s : String) : (pystrip s).data <:+: s.data := by
  show (((s.data.dropWhile Char.isWhitespace).reverse.dropWhile
      Char.isWhitespace).reverse) <:+: s.data
  have h1 : s.data.dropWhile Char.isWhitespace <:+ s.data :=
    List.dropWhile_suffix _
  have h2 : ((s.data.dropWhile Char.isWhitespace).reverse.dropWhile
      Char.isWhitespace).reverse <+: s.data.dropWhile Char.isWhitespace := by
    rw [← List.reverse_suffix]
    simpa using List.dropWhile_suffix (l := (s.data.dropWhile Char.isWhitespace).reverse)
      Char.isWhitespace
  exact h2.isInfix.trans h1.isInfix

/-- Characters of the version-file path. -/
theorem version_file_data (p : String) :
    ("src/" ++ p ++ "/_version.py").data =
      's' :: 'r' :: 'c' :: '/' :: (p.data ++ "/_version.py".data) := rfl

/-- The version-file path is nonempty. -/
theorem version_file_ne_nil (p : String) :
    ("src/" ++ p ++ "/_version.py").data ≠ [] := by
  rw [version_file_data]
  simp

/-- A newline-free package name gives a newline-free version-file path. -/
theorem newline_not_mem_version_file (p : String) (hp : '\n' ∉ p.data) :
    '\n' ∉ ("src/" ++ p ++ "/_version.py").data := by
  intro h
  rw [version_file_data] at h
  simp only [List.mem_cons, List.mem_append] at h
  rcases h with h | h | h | h | h | h
  · exact absurd h (by decide)
  · exact absurd h (by decide)
  · exact absurd h (by decide)
  · exact absurd h (by decide)
  · exact hp h
  · exact absurd h (by decide)

/-- Fact: `String.append` seen on the character lists. -/
theorem string_data_append (a b : String) : (a ++ b).data = a.data ++ b.data := by
  obtain ⟨a⟩ := a
  obtain ⟨b⟩ := b
  rfl

/-- Character decomposition of the appended ignore text. -/
theorem updated_contents_data (t vf : String) :
    (pystrip t ++ "\n" ++ vf ++ "\n").data =
      (pystrip t).data ++ '\n' :: (vf.data ++ ['\n']) := by
  have hn : ("\n" : String).data = ['\n'] := rfl
  simp [string_data_append, hn, List.append_assoc]

/-- The freshly appended ignore text holds exactly one occurrence of the
entry when the input held none. -/
theorem countOccur_updated (t vf : String)
    (hvne : vf.data ≠ []) (hvnl : '\n' ∉ vf.data)
    (h0 : countOccur vf.data t.data = 0) :
    countOccur vf.data (pystrip t ++ "\n" ++ vf ++ "\n").data = 1 := by
  rw [updated_contents_data]
  have hstrip : countOccur vf.data (pystrip t).data = 0 :=
    countOccur_zero_of_seg _ _ _ (pystrip_data_seg t) h0
  rw [countOccur_append_newline _ _ _ hvnl hstrip,
      countOccur_cons_newline _ _ hvne hvnl,
      countOccur_self_newline _ hvne hvnl]

/-- The appended ignore text always holds at least one occurrence of the
entry. -/
theorem countOccur_updated_ne_zero (t vf : String) :
    countOccur vf.data (pystrip t ++ "\n" ++ vf ++ "\n").data ≠ 0 := by
  rw [updated_contents_data]
  rw [show (pystrip t).data ++ '\n' :: (vf.data ++ ['\n']) =
      ((pystrip t).data ++ ['\n']) ++ vf.data ++ ['\n'] by simp]
  exact countOccur_append_ne_zero _ _ _

/-- Reified text of the `.gitignore` file leaf, if any. -/
def gitignoreText (struct : Structure) (opts : Opts) : Option String :=
  match lookupS struct ".gitignore" with
  | some (.file l) => ((resolve_leaf l).1).map (reify_content · opts)
  | _ => none

/-- Run of `modify_gitignore` on a tree whose `.gitignore` is a file leaf
with present content: skip when the entry already occurs, else append. -/
theorem modify_gitignore_run (struct : Structure) (opts : Opts) (l : Leaf)
    (c : Content) (op0 : FileOp) (p : String)
    (hl : lookupS struct ".gitignore" = some (.file l))
    (hrl : resolve_leaf l = (some c, op0))
    (hp : lookupOpts opts "package" = some p) :
    modify_gitignore struct opts =
      if countOccur ("src/" ++ p ++ "/_version.py").data
          (reify_content c opts).data ≠ 0 then
        .ok (struct, opts)
      else
        .ok (setEntry struct ".gitignore"
          (.file (.withOp (some (.text (pystrip (reify_content c opts) ++ "\n" ++
            ("src/" ++ p ++ "/_version.py") ++ "\n"))) op0)), opts) := by
  rw [modify_gitignore, hl]
  simp only [hrl, hp]
  by_cases hc : countOccur ("src/" ++ p ++ "/_version.py").data
      (reify_content c opts).data ≠ 0
  · simp [containsSub, hc]
  · simp [containsSub, hc]

/-! ## Claim C5: idempotence of the ignore-file patch -/

/-- C5 (amended). The ignore-file patch is idempotent (re-running it
on its own output changes nothing) and passes the options through
unchanged; when the entry already occurs in the text the tree is
returned untouched (byte-identical); and whenever the input text holds
at most one occurrence of the version-file entry, the output text holds
exactly one.  (The original claim's unconditional "exactly one
occurrence" fails when the input already held two or more occurrences:
the patch then returns the input unchanged.) -/
theorem C5_gitignore_idempotence (struct : Structure) (opts : Opts) :
    (∀ struct' opts', modify_gitignore struct opts = .ok (struct', opts') →
      opts' = opts ∧ modify_gitignore struct' opts = .ok (struct', opts)) ∧
    (∀ p t, lookupOpts opts "package" = some p →
      gitignoreText struct opts = some t →
      countOccurStr ("src/" ++ p ++ "/_version.py") t ≠ 0 →
      modify_gitignore struct opts = .ok (struct, opts)) ∧
    (∀ p t, lookupOpts opts "package" = some p → '\n' ∉ p.data →
      gitignoreText struct opts = some t →
      countOccurStr ("src/" ++ p ++ "/_version.py") t ≤ 1 →
      ∀ struct' opts', modify_gitignore struct opts = .ok (struct', opts') →
        ∀ t', gitignoreText struct' opts = some t' →
          countOccurStr ("src/" ++ p ++ "/_version.py") t' = 1) := by
  refine ⟨?_, ?_, ?_⟩
  · -- idempotence and options pass-through
    intro struct' opts' h
    rcases hl : lookupS struct ".gitignore" with _ | node
    · rw [modify_gitignore, hl] at h
      simp only [Except.ok.injEq] at h
      obtain ⟨h1, h2⟩ := Prod.mk.injEq .. ▸ h
      subst h1
      refine ⟨h2.symm, ?_⟩
      rw [modify_gitignore, hl, h2]
    · cases node with
      | dir d =>
          rw [modify_gitignore, hl] at h
          simp at h
      | file l =>
          rcases hrl : resolve_leaf l with ⟨c?, op0⟩
          cases c? with
          | none =>
              rw [modify_gitignore, hl] at h
              simp only [hrl] at h
              simp at h
          | some c =>
              rcases hp : lookupOpts opts "package" with _ | p
              · rw [modify_gitignore, hl] at h
                simp only [hrl, hp] at h
                simp at h
              · rw [modify_gitignore_run struct opts l c op0 p hl hrl hp] at h
                by_cases hc : countOccur ("src/" ++ p ++ "/_version.py").data
                    (reify_content c opts).data ≠ 0
                · rw [if_pos hc] at h
                  simp only [Except.ok.injEq] at h
                  obtain ⟨h1, h2⟩ := Prod.mk.injEq .. ▸ h
                  subst h1
                  refine ⟨h2.symm, ?_⟩
                  rw [modify_gitignore_run struct opts l c op0 p hl hrl hp,
                    if_pos hc, h2]
                · rw [if_neg hc] at h
                  simp only [Except.ok.injEq] at h
                  obtain ⟨h1, h2⟩ := Prod.mk.injEq .. ▸ h
                  subst h1
                  refine ⟨h2.symm, ?_⟩
                  have hl2 := lookupS_setEntry_self struct ".gitignore"
                    (.file (.withOp (some (.text (pystrip (reify_content c opts) ++
                      "\n" ++ ("src/" ++ p ++ "/_version.py") ++ "\n"))) op0))
                  rw [modify_gitignore_run _ opts _ _ op0 p hl2 rfl hp]
                  split
                  · rfl
                  · rename_i hfalse
                    exact absurd (countOccur_updated_ne_zero (reify_content c opts)
                      ("src/" ++ p ++ "/_version.py")) hfalse
  · -- entry already present: byte-identical skip
    intro p t hp ht hcount
    rcases hl : lookupS struct ".gitignore" with _ | node
    · simp [gitignoreText, hl] at ht
    · cases node with
      | dir d => simp [gitignoreText, hl] at ht
      | file l =>
          rcases hrl : resolve_leaf l with ⟨c?, op0⟩
          cases c? with
          | none => simp [gitignoreText, hl, hrl] at ht
          | some c =>
              have htc : reify_content c opts = t := by
                simpa [gitignoreText, hl, hrl] using ht
              rw [modify_gitignore_run struct opts l c op0 p hl hrl hp, htc]
              split
              · rfl
              · rename_i hfalse
                exact absurd hcount hfalse
  · -- at most one occurrence in, exactly one occurrence out
    intro p t hp hnl ht hle struct' opts' h t' ht'
    rcases hl : lookupS struct ".gitignore" with _ | node
    · simp [gitignoreText, hl] at ht
    · cases node with
      | dir d => simp [gitignoreText, hl] at ht
      | file l =>
          rcases hrl : resolve_leaf l with ⟨c?, op0⟩
          cases c? with
          | none => simp [gitignoreText, hl, hrl] at ht
          | some c =>
              have htc : reify_content c opts = t := by
                simpa [gitignoreText, hl, hrl] using ht
              rw [modify_gitignore_run struct opts l c op0 p hl hrl hp, htc] at h
              by_cases hc : countOccur ("src/" ++ p ++ "/_version.py").data
                  t.data ≠ 0
              · rw [if_pos hc] at h
                simp only [Except.ok.injEq] at h
                obtain ⟨h1, h2⟩ := Prod.mk.injEq .. ▸ h
                subst h1
                have htt : t' = t := by
                  rw [ht] at ht'
                  exact (Option.some.inj ht').symm
                rw [htt]
                have hc' : countOccurStr ("src/" ++ p ++ "/_version.py") t ≠ 0 := hc
                omega
              · rw [if_neg hc] at h
                simp only [ne_eq, not_not] at hc
                simp only [Except.ok.injEq] at h
                obtain ⟨h1, h2⟩ := Prod.mk.injEq .. ▸ h
                subst h1
                have hl2 := lookupS_setEntry_self struct ".gitignore"
                  (.file (.withOp (some (.text (pystrip t ++ "\n" ++
                    ("src/" ++ p ++ "/_version.py") ++ "\n"))) op0))
                have ht'2 : t' = pystrip t ++ "\n" ++
                    ("src/" ++ p ++ "/_version.py") ++ "\n" := by
                  rw [gitignoreText, hl2] at ht'
                  simpa [resolve_leaf, reify_content] using ht'.symm
                rw [ht'2]
                exact countOccur_updated t ("src/" ++ p ++ "/_version.py")
                  (version_file_ne_nil p) (newline_not_mem_version_file p hnl) hc

/-- The options used for the C5 evaluations. -/
def C5opts : Opts := [("package", "my_package")]

/-- An ignore file already holding the entry twice. -/
def C5dup : String :=
  "src/my_package/_version.py\nsrc/my_package/_version.py\n"

/-- A tree whose `.gitignore` holds the entry twice. -/
def C5struct : Structure :=
  [(".gitignore", .file (.withOp (some (.text C5dup)) .create))]

/-- C5 (counterexample). On an input that already holds the entry
twice the patch returns the tree unchanged, so the resulting text holds
two occurrences of the version-file entry — not exactly one as claimed. -/
theorem C5_gitignore_idempotence_counterexample :
    modify_gitignore C5struct C5opts = .ok (C5struct, C5opts) ∧
    countOccurStr "src/my_package/_version.py" C5dup = 2 :=
  ⟨rfl, by decide⟩

/-- Concrete input tree for the C5 witness. -/
def C5w : Structure :=
  [(".gitignore", .file (.withOp (some (.text "*.pyc\n")) .create))]

/-- The tree produced by the ignore patch on `C5w`. -/
def C5wOut : Structure :=
  [(".gitignore", .file (.withOp
      (some (.text "*.pyc\nsrc/my_package/_version.py\n")) .create))]

/-- Witness for the amended C5 theorem: re-running on the output changes
nothing, and the output text holds the entry exactly once. -/
theorem C5_gitignore_idempotence_witness :
    modify_gitignore C5wOut C5opts = .ok (C5wOut, C5opts) ∧
    countOccurStr "src/my_package/_version.py"
      "*.pyc\nsrc/my_package/_version.py\n" = 1 :=
  ⟨((C5_gitignore_idempotence C5w C5opts).1 C5wOut C5opts rfl).2,
   (C5_gitignore_idempotence C5w C5opts).2.2 "my_package" "*.pyc\n" rfl
     (by decide) rfl (by decide) C5wOut C5opts rfl
     "*.pyc\nsrc/my_package/_version.py\n" rfl⟩

/-! ## Claim C6: placeholder substitution -/

/-- Every pattern of the table starts with an opening brace. -/
theorem placeholder_table_head :
    ∀ p ∈ placeholder_table, p.1.head? = some '\x7b' := by decide

/-- No two distinct table patterns are prefixes of one another. -/
theorem placeholder_table_pairwise_apart :
    placeholder_table.Pairwise
      (fun x y => ¬ x.1.isPrefixOf y.1 = true ∧ ¬ y.1.isPrefixOf x.1 = true) := by
  decide

/-- Fact: `lookupMatch` misses at any position whose head differs from the
common first character of the table patterns. -/
theorem lookupMatch_none_of_head_ne (tbl : List (List Char × Bool)) (ch : Char)
    (htbl : ∀ p ∈ tbl, p.1.head? = some ch) (c : Char) (l : List Char)
    (hc : c ≠ ch) : lookupMatch tbl (c :: l) = none := by
  induction tbl with
  | nil => rfl
  | cons hd tl ih =>
      obtain ⟨pat, tag⟩ := hd
      have hhd := htbl (pat, tag) (List.mem_cons_self _ _)
      rw [lookupMatch]
      have hfalse : pat.isPrefixOf (c :: l) = false := by
        cases pat with
        | nil => simp at hhd
        | cons p0 ps =>
            simp only [List.head?_cons, Option.some.injEq] at hhd
            subst hhd
            rw [Bool.eq_false_iff]
            intro hpre
            obtain ⟨u, hu⟩ := isPrefixOf_eq.mp hpre
            injection hu with h1 _
            exact hc h1.symm
      rw [hfalse]
      simp only [Bool.false_eq_true, if_false, ite_false]
      exact ih fun p hp => htbl p (List.mem_cons_of_mem _ hp)

/-- Fact: `lookupMatch` at the start of a table pattern returns that pattern's
tag and length, for any continuation. -/
theorem lookupMatch_append (tbl : List (List Char × Bool))
    (hpw : tbl.Pairwise
      (fun x y => ¬ x.1.isPrefixOf y.1 = true ∧ ¬ y.1.isPrefixOf x.1 = true))
    (pat : List Char) (tag : Bool) (b : List Char) (hmem : (pat, tag) ∈ tbl) :
    lookupMatch tbl (pat ++ b) = some (tag, pat.length) := by
  induction tbl with
  | nil => cases hmem
  | cons hd tl ih =>
      obtain ⟨q, qt⟩ := hd
      rcases List.mem_cons.mp hmem with heq | hmem'
      · injection heq with h1 h2
        subst h1
        subst h2
        rw [lookupMatch]
        have hpre : pat.isPrefixOf (pat ++ b) = true :=
          isPrefixOf_eq.mpr (pref_append _ _)
        rw [hpre]
        simp
      · rw [lookupMatch]
        have hqp := (List.pairwise_cons.mp hpw).1 (pat, tag) hmem'
        have hq : q.isPrefixOf (pat ++ b) = false := by
          rw [Bool.eq_false_iff]
          intro hpre
          have hpre' := isPrefixOf_eq.mp hpre
          rcases pref_total hpre'
              (pref_append pat b) with h1 | h2
          · exact hqp.1 (isPrefixOf_eq.mpr h1)
          · exact hqp.2 (isPrefixOf_eq.mpr h2)
        rw [hq]
        simp only [Bool.false_eq_true, if_false, ite_false]
        exact ih (List.pairwise_cons.mp hpw).2 hmem'

/-- A placeholder-free character list is returned verbatim by the
scanner. -/
theorem substAux_id (proj pkg : String) (l : List Char)
    (h : ∀ p ∈ placeholder_table, countOccur p.1 l = 0) :
    substAux proj pkg l = l := by
  induction l with
  | nil => rw [substAux.eq_def]
  | cons c rest ih =>
      have hnone : lookupMatch placeholder_table (c :: rest) = none := by
        cases hlm : lookupMatch placeholder_table (c :: rest) with
        | none => rfl
        | some x =>
            obtain ⟨tag, n⟩ := x
            obtain ⟨pat, hmem, hpre, _⟩ := lookupMatch_some hlm
            have h0 := h (pat, tag) hmem
            rw [countOccur, hpre] at h0
            simp at h0
      rw [substAux]
      split
      · rename_i tag n heq
        rw [hnone] at heq
        cases heq
      · congr 1
        apply ih
        intro p hp
        have h0 := h p hp
        rw [countOccur] at h0
        omega

/-- C6. (Modelled from the spec: the substitution engine of §4.1.)
Substitution leaves placeholder-free text byte-identical, including
unrecognized brace tokens, and replaces every recognized placeholder
occurrence with the resolved project or package value while copying all
text left of the occurrence verbatim. -/
theorem C6_placeholder_substitution (text : String) (opts : Opts) :
    (hasAnyPlaceholder text = false → substitute_brace_vars text opts = text) ∧
    (∀ pat tag, (pat, tag) ∈ placeholder_table → ∀ a b : List Char,
      '\x7b' ∉ a →
      substAux (resolve_project_value opts) (resolve_package_value opts)
          (a ++ (pat ++ b)) =
        a ++ ((if tag then resolve_project_value opts
               else resolve_package_value opts).data ++
          substAux (resolve_project_value opts) (resolve_package_value opts) b)) := by
  constructor
  · intro hno
    have hall : ∀ p ∈ placeholder_table, countOccur p.1 text.data = 0 := by
      intro p hp
      rw [hasAnyPlaceholder, List.any_eq_false] at hno
      have hfp := hno p hp
      simpa [containsSub] using hfp
    rw [substitute_brace_vars, substAux_id _ _ _ hall]
  · intro pat tag hmem a b ha
    induction a with
    | nil =>
        simp only [List.nil_append]
        cases hpat : pat with
        | nil => exact absurd (hpat ▸ rfl) (placeholder_table_nonnil _ (hpat ▸ hmem))
        | cons p0 ps =>
            subst hpat
            have hlm := lookupMatch_append placeholder_table
              placeholder_table_pairwise_apart (p0 :: ps) tag b hmem
            rw [List.cons_append] at hlm
            rw [substAux.eq_def]
            split
            · rename_i n heq
              simp at heq
            · rename_i x c rest heq
              injection heq with hc0 hrest
              subst hc0
              subst hrest
              split
              · rename_i tag' n heq2
                simp only [List.append_eq] at heq2 ⊢
                rw [hlm] at heq2
                injection heq2 with heq2
                injection heq2 with h1 h2
                subst h1
                subst h2
                have hdrop : (p0 :: (ps ++ b)).drop (p0 :: ps).length = b := by
                  rw [← List.cons_append]
                  exact List.drop_left _ _
                rw [hdrop]
              · rename_i heq2
                simp only [List.append_eq] at heq2
                rw [hlm] at heq2
                cases heq2
    | cons c a' iha =>
        have hc : c ≠ '\x7b' := fun hh => ha (hh ▸ List.mem_cons_self _ _)
        simp only [List.cons_append]
        rw [substAux]
        split
        · rename_i tag' n heq
          rw [lookupMatch_none_of_head_ne placeholder_table '\x7b'
            placeholder_table_head c _ hc] at heq
          cases heq
        · have ha' : '\x7b' ∉ a' := fun hh => ha (List.mem_cons_of_mem _ hh)
          rw [iha ha']

/-- The options used in the C6 witness. -/
def C6wopts : Opts := [("project", "my-proj")]

/-- Witness for C6: placeholder-free text is returned byte-identical, and
the short package placeholder alone is replaced by the derived package
value. -/
theorem C6_placeholder_substitution_witness :
    substitute_brace_vars "plain text" C6wopts = "plain text" ∧
    substAux (resolve_project_value C6wopts) (resolve_package_value C6wopts)
        ([] ++ (("\x7b\x7bpackage\x7d\x7d").data ++ [])) =
      [] ++ ((if false then resolve_project_value C6wopts
              else resolve_package_value C6wopts).data ++
        substAux (resolve_project_value C6wopts) (resolve_package_value C6wopts)
          []) :=
  ⟨(C6_placeholder_substitution "plain text" C6wopts).1 (by decide),
   (C6_placeholder_substitution "plain text" C6wopts).2
     ("\x7b\x7bpackage\x7d\x7d").data false (by decide) [] [] (by decide)⟩

end Clickstart
